import Mathlib

/-!
Shallow embedding of the chapter-splitting core of this repository
(the module split_pdf_by_chapters: text extraction, chapter detection,
filename sanitization, splitting, and the main flow).

Modelling conventions:
* Python strings are Lean strings; most work happens on the underlying
  character lists.  Character classes of the regular expressions are
  modelled over the ASCII range, which covers every character the
  patterns mention.
* Each regular expression of the source is embedded as a hand-written
  matcher that follows the exact backtracking semantics of that concrete
  pattern on the inputs the code feeds it (single stripped lines, which
  contain no newline character).
* The Python dict of page texts is an association list in iteration
  order; the set used for duplicate removal has an unspecified iteration
  order, so the pipeline after duplicate removal is additionally stated
  over every enumeration of that set (`IsSetDedup`).
* A PDF is abstracted to its list of pages; for text extraction a page
  is `Option String` (`none` when extract_text raises), and for
  splitting only the total page count and page indices matter.
-/

namespace PdfSplit

/-- Python whitespace class over the ASCII range. -/
def pyIsSpace (c : Char) : Bool :=
  c = ' ' || c = '\t' || c = '\n' || c = '\r' || c = '\x0b' || c = '\x0c'

/-- Python digit class. -/
def pyIsDigit (c : Char) : Bool := '0' ≤ c && c ≤ '9'

/-- ASCII letter class; also what the case-insensitive letter class of the
patterns accepts. -/
def pyIsAlpha (c : Char) : Bool := ('A' ≤ c && c ≤ 'Z') || ('a' ≤ c && c ≤ 'z')

/-- Python word-character class over the ASCII range. -/
def pyIsWord (c : Char) : Bool := pyIsAlpha c || pyIsDigit c || c = '_'

/-- ASCII lower-casing, as used by str.lower on the relevant characters. -/
def asciiLower (c : Char) : Char :=
  if 'A' ≤ c && c ≤ 'Z' then Char.ofNat (c.toNat + 32) else c

/-- str.strip: remove whitespace from both ends. -/
def pyStrip (l : List Char) : List Char :=
  ((l.dropWhile pyIsSpace).reverse.dropWhile pyIsSpace).reverse

/-- str.split with separator a newline: the list of chunks between
newline characters (empty input gives one empty chunk, like Python). -/
def splitNl : List Char → List (List Char)
  | [] => [[]]
  | c :: t =>
    match splitNl t with
    | [] => [[c]]
    | h :: r => if c = '\n' then [] :: h :: r else (c :: h) :: r

/-- Core of re.sub with pattern a whitespace run: replace every maximal
whitespace run by the single character r.  The flag records whether the
previous character was inside a run already replaced. -/
def collapseAux (r : Char) : List Char → Bool → List Char
  | [], _ => []
  | c :: t, inRun =>
    if pyIsSpace c then
      if inRun then collapseAux r t true else r :: collapseAux r t true
    else c :: collapseAux r t false

/-- re.sub replacing each whitespace run by the character r. -/
def collapseWs (r : Char) (l : List Char) : List Char := collapseAux r l false

/-- Does the pattern list start the character list? -/
def startsWithL : List Char → List Char → Bool
  | [], _ => true
  | _ :: _, [] => false
  | p :: ps, c :: cs => p = c && startsWithL ps cs

/-- Does the character list start with one of the pattern lists? -/
def startsWithAny (pats : List (List Char)) (l : List Char) : Bool :=
  pats.any (fun p => startsWithL p l)

/-- Substring occurrence test. -/
def hasSub (pat : List Char) : List Char → Bool
  | [] => startsWithL pat []
  | c :: cs => startsWithL pat (c :: cs) || hasSub pat cs

/-- Case-insensitive literal matcher: each element gives the two accepted
characters.  Returns the consumed input characters and the remainder. -/
def matchCIP : List (Char × Char) → List Char → Option (List Char × List Char)
  | [], l => some ([], l)
  | _ :: _, [] => none
  | (lo, hi) :: ds, c :: cs =>
    if c = lo || c = hi then
      match matchCIP ds cs with
      | some (g, r) => some (c :: g, r)
      | none => none
    else none

/-! ### The four heading patterns of detect_chapters

Pattern list of the source, in priority order:
1. (?i)^\s*(Topic\s+[IVX]+:\s*[A-Z][A-Za-z\s:,&/()-]+)
2. (?i)^\s*(\d+\.\s+[A-Z][A-Za-z\s:,&-]+)$
3. (?i)^\s*chapter\s+(\d+\.?\s*[A-Z][^\n]+)
4. (?i)^\s*chapter\s+(\w+\.?\s*[A-Z][^\n]+)
Each matcher returns the text of capture group 1. -/

/-- Characters of the trailing class of pattern 1. -/
def class1 (c : Char) : Bool :=
  pyIsAlpha c || pyIsSpace c || c = ':' || c = ',' || c = '&' || c = '/' ||
    c = '(' || c = ')' || c = '-'

/-- Characters of the trailing class of pattern 2. -/
def class2 (c : Char) : Bool :=
  pyIsAlpha c || pyIsSpace c || c = ':' || c = ',' || c = '&' || c = '-'

/-- Roman-numeral characters of pattern 1, case-insensitive. -/
def isRoman (c : Char) : Bool :=
  c = 'I' || c = 'V' || c = 'X' || c = 'i' || c = 'v' || c = 'x'

def topicLit : List (Char × Char) :=
  [('t', 'T'), ('o', 'O'), ('p', 'P'), ('i', 'I'), ('c', 'C')]

def chapterLit : List (Char × Char) :=
  [('c', 'C'), ('h', 'H'), ('a', 'A'), ('p', 'P'), ('t', 'T'), ('e', 'E'),
    ('r', 'R')]

/-- Pattern 1 after the leading whitespace: the Topic form.  Greedy runs
followed by a character outside the run class are exact, so no search is
needed. -/
def topicCore (l : List Char) : Option (List Char) :=
  match matchCIP topicLit l with
  | none => none
  | some (g0, r0) =>
    let (ws1, r1) := r0.span pyIsSpace
    if ws1.isEmpty then none else
    let (rn, r2) := r1.span isRoman
    if rn.isEmpty then none else
    match r2 with
    | ':' :: r3 =>
      let (ws2, r4) := r3.span pyIsSpace
      match r4 with
      | c :: r5 =>
        if pyIsAlpha c then
          let run := r5.takeWhile class1
          if run.isEmpty then none
          else some (g0 ++ ws1 ++ rn ++ ':' :: (ws2 ++ c :: run))
        else none
      | [] => none
    | _ => none

/-- Pattern 2 after the leading whitespace: the full-line numbered form,
anchored at both ends. -/
def numberedCore (l : List Char) : Option (List Char) :=
  let (d, r1) := l.span pyIsDigit
  if d.isEmpty then none else
  match r1 with
  | '.' :: r2 =>
    let (ws, r3) := r2.span pyIsSpace
    if ws.isEmpty then none else
    match r3 with
    | c :: r4 =>
      if pyIsAlpha c && !r4.isEmpty && r4.all class2 then
        some (d ++ '.' :: (ws ++ c :: r4))
      else none
    | [] => none
  | _ => none

/-- Tail of patterns 3 and 4 after the optional period: a whitespace
run, a letter, then a nonempty greedy run of non-newline characters.
Returns the consumed characters. -/
def dotWsLetterRunNoDot (l : List Char) : Option (List Char) :=
  let (ws, l2) := l.span pyIsSpace
  match l2 with
  | c :: rest =>
    if pyIsAlpha c then
      let run := rest.takeWhile (fun d => !(d = '\n'))
      if run.isEmpty then none else some (ws ++ c :: run)
    else none
  | [] => none

/-- The shared tail of patterns 3 and 4: an optional period, then
whitespace, a letter and a nonempty non-newline run.  When the period is
present the pattern must consume it: skipping it would leave the
whitespace run empty in front of a non-letter.  Returns the consumed
characters. -/
def dotWsLetterRun (l : List Char) : Option (List Char) :=
  match l with
  | c :: t =>
    if c = '.' then (dotWsLetterRunNoDot t).map (fun g => '.' :: g)
    else dotWsLetterRunNoDot (c :: t)
  | [] => dotWsLetterRunNoDot []

/-- Capture group of pattern 3 (digits form), applied to the text after
"chapter" and its following whitespace. -/
def chDigitsShape (l : List Char) : Option (List Char) :=
  let (d, r) := l.span pyIsDigit
  if d.isEmpty then none
  else (dotWsLetterRun r).map (fun g => d ++ g)

/-- Backtracking loop for the \w+ of pattern 4: at least one word
character was consumed; greedily extend the word run, falling back to
matching the pattern tail at the current position. -/
def chWordLoop : List Char → Option (List Char)
  | [] => dotWsLetterRun []
  | c :: t =>
    if pyIsWord c then
      match chWordLoop t with
      | some g => some (c :: g)
      | none => dotWsLetterRun (c :: t)
    else dotWsLetterRun (c :: t)

/-- Capture group of pattern 4 (word form), applied to the text after
"chapter" and its following whitespace. -/
def chWordShape : List Char → Option (List Char)
  | [] => none
  | c :: t => if pyIsWord c then (chWordLoop t).map (fun g => c :: g) else none

/-- Consume "chapter" case-insensitively followed by at least one
whitespace character; return the remainder. -/
def afterChapterKw (l : List Char) : Option (List Char) :=
  match matchCIP chapterLit l with
  | none => none
  | some (_, r) =>
    let (ws, r2) := r.span pyIsSpace
    if ws.isEmpty then none else some r2

/-- re.search of pattern 1 on a line, returning group 1. -/
def pat1 (l : List Char) : Option (List Char) :=
  topicCore (l.dropWhile pyIsSpace)

/-- re.search of pattern 2 on a line, returning group 1. -/
def pat2 (l : List Char) : Option (List Char) :=
  numberedCore (l.dropWhile pyIsSpace)

/-- re.search of pattern 3 on a line, returning group 1. -/
def pat3 (l : List Char) : Option (List Char) :=
  (afterChapterKw (l.dropWhile pyIsSpace)).bind chDigitsShape

/-- re.search of pattern 4 on a line, returning group 1. -/
def pat4 (l : List Char) : Option (List Char) :=
  (afterChapterKw (l.dropWhile pyIsSpace)).bind chWordShape

def chapterPatterns : List (List Char → Option (List Char)) :=
  [pat1, pat2, pat3, pat4]

/-! ### The false-positive filter of detect_chapters -/

/-- Unit alternation of the first measurement regex
^\d+\.?\d*\s*(psi|ft|m|cm|kg|lbm|hr|°F|°C|kPa|Btu). -/
def units1 : List (List Char) :=
  [['p', 's', 'i'], ['f', 't'], ['m'], ['c', 'm'], ['k', 'g'],
    ['l', 'b', 'm'], ['h', 'r'], ['°', 'F'], ['°', 'C'], ['k', 'P', 'a'],
    ['B', 't', 'u']]

/-- Unit alternation of the second measurement regex
^\d+\.?\d*\s+(mol|m3|ft3|L/s). -/
def units2 : List (List Char) :=
  [['m', 'o', 'l'], ['m', '3'], ['f', 't', '3'], ['L', '/', 's']]

/-- Shared numeric front ^\d+\.?\d* of the two measurement regexes:
consume it and return the remainder, or none when there is no leading
digit. -/
def numFront (l : List Char) : Option (List Char) :=
  let (d, r1) := l.span pyIsDigit
  if d.isEmpty then none else
  let r2 := match r1 with
            | '.' :: t => t
            | _ => r1
  some (r2.dropWhile pyIsDigit)

/-- re.search of ^\d+\.?\d*\s*(psi|ft|m|cm|kg|lbm|hr|°F|°C|kPa|Btu). -/
def isMeasurement1 (l : List Char) : Bool :=
  match numFront l with
  | none => false
  | some r => startsWithAny units1 (r.dropWhile pyIsSpace)

/-- re.search of ^\d+\.?\d*\s+(mol|m3|ft3|L/s): at least one whitespace
character must separate the number from the unit. -/
def isMeasurement2 (l : List Char) : Bool :=
  match numFront l with
  | none => false
  | some r =>
    match r with
    | c :: _ => pyIsSpace c && startsWithAny units2 (r.dropWhile pyIsSpace)
    | [] => false

/-- The substring test: 'equation' in title.lower(). -/
def hasEquation (l : List Char) : Bool :=
  hasSub ['e', 'q', 'u', 'a', 't', 'i', 'o', 'n'] (l.map asciiLower)

/-- title.count of the period character. -/
def periodCount (l : List Char) : Nat := l.countP (fun c => c = '.')

/-- The false-positive filter applied to a normalized candidate title. -/
def acceptTitle (t : List Char) : Bool :=
  decide (10 < t.length) && !isMeasurement1 t && !isMeasurement2 t &&
    !hasEquation t && decide (periodCount t ≤ 2)

/-- Title normalization of the source: strip, then collapse whitespace
runs to single spaces. -/
def normalizeTitle (g : List Char) : List Char :=
  collapseWs ' ' (pyStrip g)

/-- Normalize a raw capture and run the filter, returning the accepted
title. -/
def filterAccept (g : List Char) : Option (List Char) :=
  let t := normalizeTitle g
  if acceptTitle t then some t else none

/-- The per-line pattern loop of the source: patterns in order; on a
match, normalize and filter; on acceptance stop with the title, on
rejection fall through to the next pattern. -/
def tryPatterns : List (List Char → Option (List Char)) → List Char →
    Option (List Char)
  | [], _ => none
  | m :: ms, l =>
    match m l with
    | some g =>
      match filterAccept g with
      | some t => some t
      | none => tryPatterns ms l
    | none => tryPatterns ms l

/-- The mark produced from one (already stripped) line. -/
def processLine (l : List Char) : Option (List Char) :=
  tryPatterns chapterPatterns l

/-- First-match-wins reference semantics: the first pattern that matches
a line is the only one allowed to contribute, whether or not the filter
accepts its candidate. -/
def firstWins : List (List Char → Option (List Char)) → List Char →
    Option (List Char)
  | [], _ => none
  | m :: ms, l =>
    match m l with
    | some g => filterAccept g
    | none => firstWins ms l

/-- The marks collected from one page: skip pages whose text strips to
empty, look at the first five lines, strip each line, skip empty lines,
and run the pattern loop. -/
def pageMarks (pn : Nat) (text : String) : List (Nat × String) :=
  if (pyStrip text.data).isEmpty then []
  else
    ((splitNl text.data).take 5).filterMap (fun lineChars =>
      let l := pyStrip lineChars
      if l.isEmpty then none
      else (processLine l).map (fun t => (pn, String.mk t)))

/-- The chapters list of detect_chapters before duplicate removal, in
dict iteration order. -/
def collectMarks (pageTexts : List (Nat × String)) : List (Nat × String) :=
  pageTexts.flatMap (fun pt => pageMarks pt.1 pt.2)

/-- Sort key order of the final chapters.sort: by page index only. -/
def keyLe (a b : Nat × String) : Prop := a.1 ≤ b.1

instance : DecidableRel keyLe := fun a b => Nat.decLe a.1 b.1

instance : IsTotal (Nat × String) keyLe := ⟨fun a b => Nat.le_total a.1 b.1⟩

instance : IsTrans (Nat × String) keyLe := ⟨fun _ _ _ => Nat.le_trans⟩

/-- The tail of detect_chapters after list(set(chapters)): sort the
enumerated set by page index. -/
def detectFrom (deduped : List (Nat × String)) : List (Nat × String) :=
  List.insertionSort keyLe deduped

/-- d enumerates the set underlying l: duplicate-free with the same
members.  list(set(l)) returns such a list in an unspecified order. -/
def IsSetDedup (l d : List (Nat × String)) : Prop :=
  d.Nodup ∧ ∀ x, x ∈ d ↔ x ∈ l

/-- detect_chapters, with List.dedup as one concrete enumeration of the
intermediate set. -/
def detect_chapters (pageTexts : List (Nat × String)) : List (Nat × String) :=
  detectFrom (collectMarks pageTexts).dedup

/-! ### create_chapter_filename -/

/-- Characters kept by re.sub removing the class complementary to
word characters, whitespace and hyphen. -/
def keepChar (c : Char) : Bool := pyIsWord c || pyIsSpace c || c = '-'

/-- Decimal digits of a natural number, most significant first, written
with structural fuel so that the kernel can evaluate it. -/
def natDecimalAux : Nat → Nat → List Char
  | 0, _ => []
  | fuel + 1, n =>
    if n < 10 then [Nat.digitChar n]
    else natDecimalAux fuel (n / 10) ++ [Nat.digitChar (n % 10)]

/-- str of a natural number. -/
def natDecimal (n : Nat) : List Char := natDecimalAux (n + 1) n

/-- Python format with width 2 and zero fill. -/
def pad2 (n : Nat) : List Char :=
  let d := natDecimal n
  if d.length < 2 then '0' :: d else d

/-- The slug of create_chapter_filename: drop every character that is
not a word character, whitespace or hyphen; strip; collapse whitespace
runs to single underscores; keep the first 50 characters. -/
def slugChars (title : List Char) : List Char :=
  (collapseWs '_' (pyStrip (title.filter keepChar))).take 50

/-- create_chapter_filename as characters. -/
def createFilenameChars (title : List Char) (num : Nat) : List Char :=
  'C' :: 'h' :: 'a' :: 'p' :: 't' :: 'e' :: 'r' :: '_' ::
    (pad2 num ++ '_' :: (slugChars title ++ ['.', 'p', 'd', 'f']))

/-- create_chapter_filename of the source. -/
def create_chapter_filename (title : String) (num : Nat) : String :=
  String.mk (createFilenameChars title.data num)

/-- Full match of the pattern Chapter_ then exactly two digits then an
underscore then at most 50 characters other than newline then .pdf. -/
def matchesChapterPattern (l : List Char) : Bool :=
  match l with
  | c0 :: c1 :: c2 :: c3 :: c4 :: c5 :: c6 :: c7 :: d1 :: d2 :: c10 :: rest =>
    decide (c0 = 'C') && decide (c1 = 'h') && decide (c2 = 'a') &&
      decide (c3 = 'p') && decide (c4 = 't') && decide (c5 = 'e') &&
      decide (c6 = 'r') && decide (c7 = '_') && pyIsDigit d1 && pyIsDigit d2 &&
      decide (c10 = '_') && decide (4 ≤ rest.length) &&
      decide (rest.drop (rest.length - 4) = ['.', 'p', 'd', 'f']) &&
      decide ((rest.take (rest.length - 4)).length ≤ 50) &&
      (rest.take (rest.length - 4)).all (fun c => !(c = '\n'))
  | _ => false

/-! ### extract_text_from_pdf -/

/-- extract_text_from_pdf: a page is some text when extract_text
succeeds and none when it raises; a raising page contributes the empty
string and the loop continues with the remaining pages. -/
def extract_text_from_pdf (pages : List (Option String)) :
    List (Nat × String) :=
  pages.enum.map (fun pr => (pr.1, pr.2.getD ""))

/-! ### split_pdf_by_chapters -/

/-- Python range over integers, re-indexed to the natural start the
source uses: range(s, e + 1). -/
def pythonRange (s : Nat) (e : Int) : List Nat :=
  if 0 < e + 1 - (s : Int) then List.range' s (e + 1 - (s : Int)).toNat else []

/-- One produced chapter file: its name and the indices of the pages
copied into it, in order. -/
def chapterFile (totalPages : Nat) (idx : Nat) (startPage : Nat)
    (endPage : Int) (title : String) : String × List Nat :=
  (create_chapter_filename title idx,
    (pythonRange startPage endPage).filter (fun p => decide (p < totalPages)))

/-- The end page of the chapter whose successors are the given list:
the next start minus one, or the last page for the final chapter. -/
def nextEnd (totalPages : Nat) : List (Nat × String) → Int
  | (s2, _) :: _ => (s2 : Int) - 1
  | [] => (totalPages : Int) - 1

/-- The loop of split_pdf_by_chapters: idx is the 1-based ordinal of the
next chapter. -/
def splitAux (totalPages : Nat) (idx : Nat) :
    List (Nat × String) → List (String × List Nat)
  | [] => []
  | (s, t) :: rest =>
    chapterFile totalPages idx s (nextEnd totalPages rest) t ::
      splitAux totalPages (idx + 1) rest

/-- split_pdf_by_chapters, abstracted to the created files (name and
copied page indices); writing to disk is outside the model. -/
def split_pdf_by_chapters (totalPages : Nat) (chapters : List (Nat × String)) :
    List (String × List Nat) :=
  splitAux totalPages 1 chapters

/-! ### The main flow -/

/-- Outcome of one run of main. -/
inductive RunResult where
  | noChapters : RunResult
  | split : List (String × List Nat) → RunResult
  deriving DecidableEq

/-- The chapter files a run created. -/
def RunResult.files : RunResult → List (String × List Nat)
  | .noChapters => []
  | .split fs => fs

/-- main: extract page texts, detect chapters, return early reporting
zero chapters when detection is empty (the source has no call to
manual_chapter_input on this path), otherwise split. -/
def mainFlow (pages : List (Option String)) : RunResult :=
  if (detect_chapters (extract_text_from_pdf pages)).isEmpty then
    RunResult.noChapters
  else
    RunResult.split (split_pdf_by_chapters pages.length
      (detect_chapters (extract_text_from_pdf pages)))

/-! ### Definitions following the words of the specification

These two definitions are deliberately written from the wording of the
specification, not from the source, to compare the two. -/

/-- Modelled from the spec: the unit vocabulary the specification lists
for the measurement filter. -/
def specUnitVocab : List (List Char) :=
  [['p', 's', 'i'], ['f', 't'], ['k', 'g'], ['°', 'F'], ['°', 'C'],
    ['k', 'P', 'a'], ['B', 't', 'u'], ['m', 'o', 'l'], ['m', '3'],
    ['f', 't', '3'], ['L', '/', 's']]

/-- Modelled from the spec: a title that begins with a number
immediately followed by a physical unit token from the vocabulary. -/
def specBeginsNumberUnit (t : List Char) : Bool :=
  match numFront t with
  | none => false
  | some r => startsWithAny specUnitVocab r

/-- Modelled from the spec: the slug derivation the claim describes,
keeping only alphanumeric, whitespace and hyphen characters (so
dropping underscores), then collapsing whitespace to underscores and
truncating. -/
def specSlug (title : List Char) : List Char :=
  (collapseWs '_' ((title.filter
    (fun c => pyIsAlpha c || pyIsDigit c || pyIsSpace c || c = '-')))).take 50

/-! ## Helper lemmas -/

theorem mem_of_mem_dropWhile {p : Char → Bool} {l : List Char} {x : Char}
    (h : x ∈ l.dropWhile p) : x ∈ l := by
  induction l with
  | nil => simp at h
  | cons c t ih =>
    rw [List.dropWhile_cons] at h
    by_cases hp : p c
    · simp only [hp, if_true] at h
      exact List.mem_cons_of_mem c (ih h)
    · simp only [hp, if_false] at h
      exact h

theorem mem_of_mem_pyStrip {l : List Char} {x : Char} (h : x ∈ pyStrip l) :
    x ∈ l := by
  unfold pyStrip at h
  rw [List.mem_reverse] at h
  have h2 := mem_of_mem_dropWhile h
  rw [List.mem_reverse] at h2
  exact mem_of_mem_dropWhile h2

theorem mem_collapseAux {r : Char} {l : List Char} {b : Bool} {x : Char}
    (h : x ∈ collapseAux r l b) : (x ∈ l ∧ pyIsSpace x = false) ∨ x = r := by
  induction l generalizing b with
  | nil => simp [collapseAux] at h
  | cons c t ih =>
    rw [collapseAux] at h
    by_cases hs : pyIsSpace c
    · simp only [hs, if_true] at h
      by_cases hb : b
      · subst hb
        simp only [if_true] at h
        rcases ih h with ⟨hm, hns⟩ | hr
        · exact Or.inl ⟨List.mem_cons_of_mem c hm, hns⟩
        · exact Or.inr hr
      · simp only [hb, if_false] at h
        rcases List.mem_cons.mp h with rfl | h2
        · exact Or.inr rfl
        · rcases ih h2 with ⟨hm, hns⟩ | hr
          · exact Or.inl ⟨List.mem_cons_of_mem c hm, hns⟩
          · exact Or.inr hr
    · simp only [hs, if_false] at h
      rcases List.mem_cons.mp h with rfl | h2
      · exact Or.inl ⟨List.mem_cons_self x t, by simpa using hs⟩
      · rcases ih h2 with ⟨hm, hns⟩ | hr
        · exact Or.inl ⟨List.mem_cons_of_mem c hm, hns⟩
        · exact Or.inr hr

/-- Every character surviving into the slug is a word character or a
hyphen: literal characters through the keep filter, underscores from
collapsed whitespace. -/
theorem mem_slugChars {title : List Char} {x : Char}
    (h : x ∈ slugChars title) : pyIsWord x = true ∨ x = '-' := by
  unfold slugChars at h
  have h2 := mem_collapseAux (List.mem_of_mem_take h)
  rcases h2 with ⟨hm, hns⟩ | rfl
  · have h3 := mem_of_mem_pyStrip hm
    have h4 := (List.mem_filter.mp h3).2
    unfold keepChar at h4
    rcases Bool.or_eq_true_iff.mp h4 with h5 | h5
    · rcases Bool.or_eq_true_iff.mp h5 with h6 | h6
      · exact Or.inl h6
      · rw [h6] at hns
        simp at hns
    · exact Or.inr (by simpa using h5)
  · exact Or.inl (by decide)

/-- List.dedup is one valid enumeration of the set underlying a list. -/
theorem isSetDedup_dedup (l : List (Nat × String)) : IsSetDedup l l.dedup :=
  ⟨List.nodup_dedup l, fun _ => List.mem_dedup⟩

/-! ## Claim C3: extract_text_from_pdf covers every page and survives
per-page failures -/

/-- C3: the key set of the extracted mapping is exactly 0 .. page count
minus one, in order and with no gaps, and a page whose extraction raises
still gets an entry, with the empty string, while all other pages keep
theirs. -/
theorem extract_text_covers_all_pages (pages : List (Option String)) :
    ((extract_text_from_pdf pages).map Prod.fst = List.range pages.length) ∧
    (∀ i (h : i < pages.length), pages.get ⟨i, h⟩ = none →
      (i, "") ∈ extract_text_from_pdf pages) := by
  constructor
  · rw [extract_text_from_pdf, List.map_map]
    have : (Prod.fst ∘ fun pr : Nat × Option String => (pr.1, pr.2.getD "")) =
        Prod.fst := rfl
    rw [this, List.enum_map_fst]
  · intro i h hfail
    have hlen : i < (extract_text_from_pdf pages).length := by
      simpa [extract_text_from_pdf] using h
    have hget : (extract_text_from_pdf pages).get ⟨i, hlen⟩ = (i, "") := by
      simp only [extract_text_from_pdf, List.get_eq_getElem, List.getElem_map,
        List.getElem_enum]
      rw [show pages[i] = pages.get ⟨i, h⟩ from rfl, hfail]
      rfl
    rw [← hget]
    exact List.get_mem _ _ hlen

/-- C3 witness: a three-page document whose middle page raises. -/
theorem extract_text_covers_all_pages_witness :
    ((extract_text_from_pdf [some "a", none, some "b"]).map Prod.fst =
      List.range 3) ∧
    (1, "") ∈ extract_text_from_pdf [some "a", none, some "b"] :=
  ⟨(extract_text_covers_all_pages [some "a", none, some "b"]).1,
    (extract_text_covers_all_pages [some "a", none, some "b"]).2 1
      (by decide) (by decide)⟩

/-! ## Claim C8: empty detection ends the run with zero chapters -/

/-- C8: when the detector returns the empty sequence, main returns
before the splitter is invoked, reporting zero chapters, and no chapter
file is created. -/
theorem main_empty_detection_no_split (pages : List (Option String))
    (h : detect_chapters (extract_text_from_pdf pages) = []) :
    mainFlow pages = RunResult.noChapters ∧ (mainFlow pages).files = [] := by
  have hmain : mainFlow pages = RunResult.noChapters := by
    unfold mainFlow
    rw [h]
    rfl
  exact ⟨hmain, by rw [hmain]; rfl⟩

/-- C8 witness: a one-page document with no heading. -/
theorem main_empty_detection_no_split_witness :
    mainFlow [some "hello world"] = RunResult.noChapters ∧
    (mainFlow [some "hello world"]).files = [] :=
  main_empty_detection_no_split [some "hello world"] (by decide)

/-! ## Claim C10: one output file per mark, empty ranges included -/

theorem splitAux_length (total : Nat) :
    ∀ (ch : List (Nat × String)) (idx : Nat),
      (splitAux total idx ch).length = ch.length := by
  intro ch
  induction ch with
  | nil => intro idx; rfl
  | cons hd tl ih =>
    intro idx
    cases hd with
    | mk s t => simp [splitAux, ih]

theorem mem_pythonRange {s : Nat} {e : Int} {x : Nat}
    (h : x ∈ pythonRange s e) : s ≤ x := by
  unfold pythonRange at h
  by_cases hc : 0 < e + 1 - (s : Int)
  · rw [if_pos hc] at h
    exact (List.mem_range'_1.mp h).1
  · rw [if_neg hc] at h
    simp at h

theorem splitAux_get_pages_empty (total : Nat) :
    ∀ (ch : List (Nat × String)) (idx i : Nat) (h : i < ch.length)
      (h2 : i < (splitAux total idx ch).length),
      (total ≤ (ch.get ⟨i, h⟩).1 ∨
        ∃ h3 : i + 1 < ch.length, (ch.get ⟨i + 1, h3⟩).1 ≤ (ch.get ⟨i, h⟩).1) →
      ((splitAux total idx ch).get ⟨i, h2⟩).2 = [] := by
  intro ch
  induction ch with
  | nil => intro idx i h; exact absurd h (by simp)
  | cons hd tl ih =>
    intro idx i h h2 hcond
    cases hd with
    | mk s t =>
      cases i with
      | zero =>
        simp only [splitAux, List.get_eq_getElem, List.getElem_cons_zero,
          chapterFile]
        rcases hcond with hts | ⟨h3, hle⟩
        · simp only [List.get_eq_getElem, List.getElem_cons_zero] at hts
          rw [List.filter_eq_nil_iff]
          intro a ha
          have := mem_pythonRange ha
          simp only [decide_eq_true_eq]
          omega
        · cases tl with
          | nil => exact absurd h3 (by simp)
          | cons hd2 tl2 =>
            cases hd2 with
            | mk s2 t2 =>
              simp only [List.get_eq_getElem, List.getElem_cons_zero,
                List.getElem_cons_succ] at hle
              have hr : pythonRange s ((s2 : Int) - 1) = [] := by
                unfold pythonRange
                rw [if_neg (by omega)]
              simp only [nextEnd]
              rw [hr]
              rfl
      | succ j =>
        simp only [splitAux, List.get_eq_getElem, List.getElem_cons_succ]
        have hj : j < tl.length := by simpa using h
        have hj2 : j < (splitAux total (idx + 1) tl).length := by
          rw [splitAux_length]; exact hj
        have := ih (idx + 1) j hj hj2 ?_
        · exact this
        · rcases hcond with hts | ⟨h3, hle⟩
          · left
            simpa using hts
          · right
            refine ⟨by simpa using h3, ?_⟩
            simpa using hle

/-- C10: split_pdf_by_chapters creates exactly one file per chapter
mark; a mark whose computed page range is empty (its start at or past
the page count, or the next mark not later than it) still yields its
file, with zero pages, rather than being skipped. -/
theorem split_one_file_per_mark (total : Nat) (ch : List (Nat × String)) :
    ((split_pdf_by_chapters total ch).length = ch.length) ∧
    (∀ i (h : i < ch.length) (h2 : i < (split_pdf_by_chapters total ch).length),
      (total ≤ (ch.get ⟨i, h⟩).1 ∨
        ∃ h3 : i + 1 < ch.length, (ch.get ⟨i + 1, h3⟩).1 ≤ (ch.get ⟨i, h⟩).1) →
      ((split_pdf_by_chapters total ch).get ⟨i, h2⟩).2 = []) :=
  ⟨splitAux_length total ch 1,
    fun i h h2 hc => splitAux_get_pages_empty total ch 1 i h h2 hc⟩

/-- C10 witness: a mark starting past the end of a four-page document
still yields a (zero-page) file, and the count of files equals the count
of marks. -/
theorem split_one_file_per_mark_witness :
    ((split_pdf_by_chapters 4 [(5, "Alpha"), (7, "Beta")]).length = 2) ∧
    ((split_pdf_by_chapters 4 [(5, "Alpha"), (7, "Beta")]).get
      ⟨0, by decide⟩).2 = [] :=
  ⟨(split_one_file_per_mark 4 [(5, "Alpha"), (7, "Beta")]).1,
    (split_one_file_per_mark 4 [(5, "Alpha"), (7, "Beta")]).2 0 (by decide)
      (by decide) (Or.inl (by decide))⟩

/-! ## Claim C1: contiguous chapters tile the document -/

theorem splitAux_flatMap (total : Nat) :
    ∀ (rest : List (Nat × String)) (s0 : Nat) (t0 : String) (idx : Nat),
      List.Chain' (fun a b : Nat × String => a.1 < b.1) ((s0, t0) :: rest) →
      (∀ m ∈ (s0, t0) :: rest, m.1 < total) →
      (splitAux total idx ((s0, t0) :: rest)).flatMap (fun f => f.2) =
        List.range' s0 (total - s0) := by
  intro rest
  induction rest with
  | nil =>
    intro s0 t0 idx _ hbound
    have hs0 : s0 < total := hbound (s0, t0) (List.mem_singleton_self _)
    simp only [splitAux, nextEnd, chapterFile, List.flatMap_cons,
      List.flatMap_nil, List.append_nil]
    have hr : pythonRange s0 ((total : Int) - 1) =
        List.range' s0 (total - s0) := by
      unfold pythonRange
      rw [if_pos (by omega)]
      congr 1
      omega
    rw [hr, List.filter_eq_self.mpr]
    intro a ha
    have := List.mem_range'_1.mp ha
    simp only [decide_eq_true_eq]
    omega
  | cons hd2 tl2 ih =>
    intro s0 t0 idx hchain hbound
    cases hd2 with
    | mk s1 t1 =>
      have hs01 : s0 < s1 := (List.chain'_cons.mp hchain).1
      have hs1 : s1 < total :=
        hbound (s1, t1) (List.mem_cons_of_mem _ (List.mem_cons_self _ _))
      simp only [splitAux, nextEnd, chapterFile, List.flatMap_cons]
      have hr : pythonRange s0 ((s1 : Int) - 1) =
          List.range' s0 (s1 - s0) := by
        unfold pythonRange
        rw [if_pos (by omega)]
        congr 1
        omega
      have hfilter : (pythonRange s0 ((s1 : Int) - 1)).filter
          (fun p => decide (p < total)) = List.range' s0 (s1 - s0) := by
        rw [hr, List.filter_eq_self.mpr]
        intro a ha
        have := List.mem_range'_1.mp ha
        simp only [decide_eq_true_eq]
        omega
      have hih : (splitAux total (idx + 1) ((s1, t1) :: tl2)).flatMap
          (fun f => f.2) = List.range' s1 (total - s1) := by
        apply ih s1 t1 (idx + 1) (List.chain'_cons.mp hchain).2
        intro m hm
        exact hbound m (List.mem_cons_of_mem _ hm)
      simp only [splitAux, nextEnd, chapterFile, List.flatMap_cons] at hih
      rw [hfilter, hih]
      have happ := List.range'_append s0 (s1 - s0) (total - s1) 1
      rw [one_mul, show s0 + (s1 - s0) = s1 from by omega] at happ
      rw [happ]
      congr 1
      omega

/-- C1: for a strictly increasing mark list whose start pages all lie
inside the document, the produced files tile the page interval from the
first start page to the last page: their concatenation, in order, is
exactly the contiguous range (so the ranges are contiguous,
non-overlapping and covering), and the page counts sum to the total
page count minus the first start page. -/
theorem split_tiles_document (total s0 : Nat) (t0 : String)
    (rest : List (Nat × String))
    (hchain : List.Chain' (fun a b : Nat × String => a.1 < b.1)
      ((s0, t0) :: rest))
    (hbound : ∀ m ∈ (s0, t0) :: rest, m.1 < total) :
    ((split_pdf_by_chapters total ((s0, t0) :: rest)).flatMap (fun f => f.2) =
      List.range' s0 (total - s0)) ∧
    (((split_pdf_by_chapters total ((s0, t0) :: rest)).map
      (fun f => f.2.length)).sum = total - s0) := by
  have hmain := splitAux_flatMap total rest s0 t0 1 hchain hbound
  refine ⟨hmain, ?_⟩
  have hlen : ((split_pdf_by_chapters total ((s0, t0) :: rest)).flatMap
      (fun f => f.2)).length = (List.range' s0 (total - s0)).length := by
    rw [split_pdf_by_chapters] at *
    rw [hmain]
  rw [List.length_flatMap, List.length_range'] at hlen
  rw [← hlen]
  congr 1

/-- C1 witness: two chapters starting at pages 1 and 3 of a five-page
document tile pages 1 to 4. -/
theorem split_tiles_document_witness :
    ((split_pdf_by_chapters 5 [(1, "Alpha"), (3, "Beta")]).flatMap
      (fun f => f.2) = List.range' 1 4) ∧
    (((split_pdf_by_chapters 5 [(1, "Alpha"), (3, "Beta")]).map
      (fun f => f.2.length)).sum = 4) :=
  split_tiles_document 5 1 "Alpha" [(3, "Beta")]
    (List.chain'_cons.mpr ⟨by decide, List.chain'_singleton _⟩)
    (by intro m hm; fin_cases hm <;> decide)

/-! ## Claim C6: the filename always matches the documented pattern -/

/-- For ordinals between 1 and 99 the zero-padded field is exactly two
digit characters. -/
theorem pad2_two_digits (n : Nat) (h1 : 1 ≤ n) (h2 : n ≤ 99) :
    ∃ a b, pad2 n = [a, b] ∧ pyIsDigit a = true ∧ pyIsDigit b = true := by
  interval_cases n <;> exact ⟨_, _, rfl, rfl, rfl⟩

theorem slugChars_length_le (title : List Char) :
    (slugChars title).length ≤ 50 := by
  unfold slugChars
  exact List.length_take_le _ _

theorem slugChars_no_newline (title : List Char) :
    (slugChars title).all (fun c => !(c = '\n')) = true := by
  rw [List.all_eq_true]
  intro c hc
  rcases mem_slugChars hc with hw | rfl
  · have hne : ¬(c = '\n') := by
      intro heq
      rw [heq] at hw
      exact absurd hw (by decide)
    simp [hne]
  · decide

/-- C6 counterexample: the claim quantifies over every positive ordinal,
but at ordinal 100 the formatted field has three digits and the filename
no longer matches the documented pattern. -/
theorem filename_pattern_cex :
    matchesChapterPattern (create_chapter_filename "Alpha" 100).data =
      false := by decide

/-- C6 amended: create_chapter_filename is total and deterministic on
every title, and for ordinals 1 to 99 (three-digit ordinals excluded)
its output matches Chapter_ two digits _ at most 50 non-newline
characters .pdf. -/
theorem filename_matches_pattern (title : String) (n : Nat) (h1 : 1 ≤ n)
    (h2 : n ≤ 99) :
    matchesChapterPattern (create_chapter_filename title n).data = true := by
  obtain ⟨a, b, hpad, hda, hdb⟩ := pad2_two_digits n h1 h2
  show matchesChapterPattern (createFilenameChars title.data n) = true
  rw [createFilenameChars, hpad]
  simp only [List.cons_append, List.nil_append]
  simp only [matchesChapterPattern, Bool.and_eq_true, decide_eq_true_eq]
  have hlen : (slugChars title.data ++ ['.', 'p', 'd', 'f']).length =
      (slugChars title.data).length + 4 := by
    rw [List.length_append]
    rfl
  have hsub : (slugChars title.data ++ ['.', 'p', 'd', 'f']).length - 4 =
      (slugChars title.data).length := by omega
  have hdrop : (slugChars title.data ++ ['.', 'p', 'd', 'f']).drop
      ((slugChars title.data ++ ['.', 'p', 'd', 'f']).length - 4) =
      ['.', 'p', 'd', 'f'] := by
    rw [hsub, List.drop_left]
  have htake : (slugChars title.data ++ ['.', 'p', 'd', 'f']).take
      ((slugChars title.data ++ ['.', 'p', 'd', 'f']).length - 4) =
      slugChars title.data := by
    rw [hsub, List.take_left]
  simp [hda, hdb, hdrop, htake, hlen, slugChars_length_le title.data,
    slugChars_no_newline title.data]

/-- C6 witness: a two-digit ordinal with an ordinary title. -/
theorem filename_matches_pattern_witness :
    matchesChapterPattern (create_chapter_filename "Fluid Dynamics" 7).data =
      true :=
  filename_matches_pattern "Fluid Dynamics" 7 (by decide) (by decide)

/-! ## Claim C7: what the slug keeps -/

/-- C7 counterexample: the source keeps word characters, so an
underscore already present in the title survives into the slug, while
the claimed recipe (keep only alphanumeric, whitespace, hyphen) would
drop it. -/
theorem slug_spec_cex :
    slugChars ("a_b" : String).data ≠ specSlug ("a_b" : String).data ∧
    create_chapter_filename "a_b" 1 = "Chapter_01_a_b.pdf" ∧
    specSlug ("a_b" : String).data = ['a', 'b'] := by decide

/-- C7 amended: the slug keeps exactly word characters (alphanumeric or
underscore), hyphens, and underscores substituted for whitespace runs:
every character surviving into the slug is a word character or a
hyphen. -/
theorem slug_survivors (title : String) :
    ∀ c ∈ slugChars title.data, pyIsWord c = true ∨ c = '-' :=
  fun _ hc => mem_slugChars hc

/-- C7 witness: a surviving letter of a concrete title. -/
theorem slug_survivors_witness : pyIsWord 'a' = true ∨ 'a' = '-' :=
  slug_survivors "a b-c" 'a' (by decide)

/-! ## Claim C2: detector output is sorted and duplicate-free -/

/-- C2: for every enumeration of the deduplicated mark set, the detector
output is sorted ascending by page index and contains no duplicate
(page index, title) pair; detect_chapters instantiates this with
List.dedup. -/
theorem detect_sorted_nodup (pages d : List (Nat × String))
    (h : IsSetDedup (collectMarks pages) d) :
    List.Sorted keyLe (detectFrom d) ∧ (detectFrom d).Nodup :=
  ⟨List.sorted_insertionSort keyLe d,
    ((List.perm_insertionSort keyLe d).nodup_iff).mpr h.1⟩

/-- C2 witness: a concrete one-page document. -/
theorem detect_sorted_nodup_witness :
    List.Sorted keyLe
      (detectFrom (collectMarks [(0, "Chapter 1. Alpha Beta Gamma")]).dedup) ∧
    (detectFrom
      (collectMarks [(0, "Chapter 1. Alpha Beta Gamma")]).dedup).Nodup :=
  detect_sorted_nodup [(0, "Chapter 1. Alpha Beta Gamma")] _
    (isSetDedup_dedup _)

/-! ## Claim C9: iteration-order independence of the detector -/

/-- C9 counterexample: one page yielding two marks with the same page
index.  Both orders of the two marks are valid enumerations of the
intermediate set, and the final sort, which compares page indices only,
keeps whichever order the set iteration produced: the output sequence is
not a function of the key-value mapping. -/
theorem detect_order_dep_cex :
    IsSetDedup
      (collectMarks
        [(0, "Chapter 1. Alpha Beta Gamma\nChapter 2. Delta Epsilon Zeta")])
      [(0, "1. Alpha Beta Gamma"), (0, "2. Delta Epsilon Zeta")] ∧
    IsSetDedup
      (collectMarks
        [(0, "Chapter 1. Alpha Beta Gamma\nChapter 2. Delta Epsilon Zeta")])
      [(0, "2. Delta Epsilon Zeta"), (0, "1. Alpha Beta Gamma")] ∧
    detectFrom [(0, "1. Alpha Beta Gamma"), (0, "2. Delta Epsilon Zeta")] ≠
      detectFrom [(0, "2. Delta Epsilon Zeta"), (0, "1. Alpha Beta Gamma")] := by
  have hc : collectMarks
      [(0, "Chapter 1. Alpha Beta Gamma\nChapter 2. Delta Epsilon Zeta")] =
      [(0, "1. Alpha Beta Gamma"), (0, "2. Delta Epsilon Zeta")] := by decide
  refine ⟨⟨by decide, ?_⟩, ⟨by decide, ?_⟩, by decide⟩
  · intro x
    rw [hc]
  · intro x
    rw [hc]
    simp [List.mem_cons, or_comm]

/-- C9 amended: up to the order of distinct marks sharing a page index,
the detector is independent of the iteration order of the source
mapping and of the intermediate set: any two outputs obtained from
permuted page mappings and arbitrary set enumerations are permutations
of each other, and each is sorted by page index. -/
theorem detect_order_independent (p1 p2 d1 d2 : List (Nat × String))
    (hp : p1.Perm p2) (h1 : IsSetDedup (collectMarks p1) d1)
    (h2 : IsSetDedup (collectMarks p2) d2) :
    (detectFrom d1).Perm (detectFrom d2) ∧
    List.Sorted keyLe (detectFrom d1) ∧ List.Sorted keyLe (detectFrom d2) := by
  have hcol : (collectMarks p1).Perm (collectMarks p2) := by
    rw [collectMarks, collectMarks, List.flatMap_def, List.flatMap_def]
    exact (hp.map _).flatten
  have hd : d1.Perm d2 := by
    rw [List.perm_ext_iff_of_nodup h1.1 h2.1]
    intro a
    rw [h1.2 a, h2.2 a]
    exact hcol.mem_iff
  exact ⟨((List.perm_insertionSort keyLe d1).trans hd).trans
      (List.perm_insertionSort keyLe d2).symm,
    List.sorted_insertionSort keyLe d1, List.sorted_insertionSort keyLe d2⟩

/-- C9 amended witness: a concrete mapping compared with itself. -/
theorem detect_order_independent_witness :
    (detectFrom
      (collectMarks [(0, "Topic I: Mass and Energy Balances")]).dedup).Perm
      (detectFrom
        (collectMarks [(0, "Topic I: Mass and Energy Balances")]).dedup) ∧
    List.Sorted keyLe (detectFrom
      (collectMarks [(0, "Topic I: Mass and Energy Balances")]).dedup) ∧
    List.Sorted keyLe (detectFrom
      (collectMarks [(0, "Topic I: Mass and Energy Balances")]).dedup) :=
  detect_order_independent _ _ _ _ (List.Perm.refl _) (isSetDedup_dedup _)
    (isSetDedup_dedup _)

/-! ## Claim C4: the false-positive filter -/

theorem tryPatterns_accept (ms : List (List Char → Option (List Char))) :
    ∀ l t, tryPatterns ms l = some t → acceptTitle t = true := by
  induction ms with
  | nil => intro l t h; simp [tryPatterns] at h
  | cons m ms ih =>
    intro l t h
    rw [tryPatterns] at h
    cases hm : m l with
    | none =>
      simp only [hm] at h
      exact ih l t h
    | some g =>
      simp only [hm] at h
      cases hf : filterAccept g with
      | none =>
        simp only [hf] at h
        exact ih l t h
      | some t2 =>
        simp only [hf] at h
        have ht : t2 = t := Option.some.inj h
        unfold filterAccept at hf
        by_cases ha : acceptTitle (normalizeTitle g) = true
        · rw [if_pos ha] at hf
          rw [← ht, ← Option.some.inj hf]
          exact ha
        · rw [if_neg ha] at hf
          exact absurd hf (by simp)

theorem collectMarks_accept (pages : List (Nat × String)) (p : Nat)
    (t : String) (h : (p, t) ∈ collectMarks pages) :
    acceptTitle t.data = true := by
  unfold collectMarks at h
  rw [List.mem_flatMap] at h
  obtain ⟨pt, _, hmem⟩ := h
  unfold pageMarks at hmem
  by_cases hempty : (pyStrip pt.2.data).isEmpty
  · rw [if_pos hempty] at hmem
    simp at hmem
  · rw [if_neg hempty] at hmem
    rw [List.mem_filterMap] at hmem
    obtain ⟨line, _, hsome⟩ := hmem
    by_cases hle : (pyStrip line).isEmpty
    · rw [if_pos hle] at hsome
      exact absurd hsome (by simp)
    · rw [if_neg hle] at hsome
      cases hpl : processLine (pyStrip line) with
      | none =>
        rw [hpl] at hsome
        exact absurd hsome (by simp)
      | some g =>
        rw [hpl] at hsome
        have hpair : (pt.1, String.mk g) = (p, t) := by
          simpa using hsome
        have ht : t = String.mk g := ((Prod.mk.injEq _ _ _ _).mp hpair).2.symm
        rw [ht]
        exact tryPatterns_accept chapterPatterns (pyStrip line) g hpl

theorem detect_chapters_mem (pages : List (Nat × String)) (p : Nat)
    (t : String) (h : (p, t) ∈ detect_chapters pages) :
    (p, t) ∈ collectMarks pages := by
  unfold detect_chapters detectFrom at h
  exact List.mem_dedup.mp ((List.perm_insertionSort keyLe _).mem_iff.mp h)

/-- C4 amended: every title the detector returns passes the filter as
the source implements it: longer than 10 characters, not matching
either measurement regex (the first allows optional whitespace before
its units, the second requires at least one whitespace character before
mol, m3, ft3 or L/s, so a number immediately followed by L/s is not
rejected), no occurrence of equation case-insensitively, and at most
two periods.  The three concrete lines of the claim behave as stated. -/
theorem detect_filter_amended :
    (∀ pages p t, (p, t) ∈ detect_chapters pages →
      10 < t.length ∧ isMeasurement1 t.data = false ∧
      isMeasurement2 t.data = false ∧ hasEquation t.data = false ∧
      periodCount t.data ≤ 2) ∧
    detect_chapters [(0, "1.2.3 some reference")] = [] ∧
    detect_chapters [(0, "14 psi absolute pressure")] = [] ∧
    detect_chapters [(0, "Chapter 4. Fluid Dynamics and Pressure")] =
      [(0, "4. Fluid Dynamics and Pressure")] := by
  refine ⟨?_, by decide, by decide, by decide⟩
  intro pages p t h
  have ha := collectMarks_accept pages p t (detect_chapters_mem pages p t h)
  unfold acceptTitle at ha
  simp only [Bool.and_eq_true, decide_eq_true_eq, Bool.not_eq_true'] at ha
  exact ⟨ha.1.1.1.1, ha.1.1.1.2, ha.1.1.2, ha.1.2, ha.2⟩

/-- C4 amended witness: the accepted title of the Chapter 4 line passes
each filter clause. -/
theorem detect_filter_amended_witness :
    10 < ("4. Fluid Dynamics and Pressure" : String).length ∧
    isMeasurement1 ("4. Fluid Dynamics and Pressure" : String).data = false ∧
    isMeasurement2 ("4. Fluid Dynamics and Pressure" : String).data = false ∧
    hasEquation ("4. Fluid Dynamics and Pressure" : String).data = false ∧
    periodCount ("4. Fluid Dynamics and Pressure" : String).data ≤ 2 :=
  detect_filter_amended.1 [(0, "Chapter 4. Fluid Dynamics and Pressure")] 0
    "4. Fluid Dynamics and Pressure" (by decide)

/-- C4 counterexample: the line Chapter 14L/s followed by more text
produces a mark whose title begins with a number immediately followed by
the unit token L/s from the unit vocabulary of the specification, so the
claimed rejection does not happen. -/
theorem detect_unit_filter_cex :
    detect_chapters [(0, "Chapter 14L/s high pressure flow")] =
      [(0, "14L/s high pressure flow")] ∧
    specBeginsNumberUnit ("14L/s high pressure flow" : String).data = true := by
  decide

/-! ## Claim C5: the first matching pattern owns the line

The four patterns are tried in order, and a pattern that matches but is
rejected by the filter lets the loop fall through to later patterns.
The lemmas below show the only pair of patterns that can both match a
newline-free line is the Chapter digits and Chapter word pair, and on
such a line they capture the same group, so the fall-through can never
produce a different mark than the first matching pattern would. -/

theorem matchCIP_head {lo hi : Char} {ds : List (Char × Char)} {l : List Char}
    {gr : List Char × List Char}
    (h : matchCIP ((lo, hi) :: ds) l = some gr) :
    ∃ c cs, l = c :: cs ∧ (c = lo ∨ c = hi) := by
  cases l with
  | nil => simp [matchCIP] at h
  | cons c cs =>
    rw [matchCIP] at h
    by_cases hc : (decide (c = lo) || decide (c = hi)) = true
    · refine ⟨c, cs, rfl, ?_⟩
      simpa using hc
    · rw [if_neg (by simpa using hc)] at h
      simp at h

theorem matchCIP_rest_subset :
    ∀ (ds : List (Char × Char)) (l : List Char)
      (gr : List Char × List Char), matchCIP ds l = some gr →
      ∀ x ∈ gr.2, x ∈ l := by
  intro ds
  induction ds with
  | nil =>
    intro l gr h x hx
    rw [matchCIP] at h
    cases h
    exact hx
  | cons d ds ih =>
    intro l gr h x hx
    cases d with
    | mk lo hi =>
      cases l with
      | nil => simp [matchCIP] at h
      | cons c cs =>
        rw [matchCIP] at h
        by_cases hc : (decide (c = lo) || decide (c = hi)) = true
        · rw [if_pos hc] at h
          cases hm : matchCIP ds cs with
          | none => rw [hm] at h; simp at h
          | some gr2 =>
            rw [hm] at h
            cases h
            exact List.mem_cons_of_mem c (ih cs gr2 hm x hx)
        · rw [if_neg hc] at h
          simp at h

theorem afterChapterKw_subset {l r : List Char}
    (h : afterChapterKw l = some r) : ∀ x ∈ r, x ∈ l := by
  intro x hx
  rw [afterChapterKw] at h
  cases hm : matchCIP chapterLit l with
  | none => rw [hm] at h; simp at h
  | some gr =>
    cases gr with
    | mk g0 rr =>
      simp only [hm, List.span_eq_take_drop] at h
      by_cases hw : (rr.takeWhile pyIsSpace).isEmpty
      · rw [if_pos hw] at h
        simp at h
      · rw [if_neg hw] at h
        have hr : r = rr.dropWhile pyIsSpace := (Option.some.inj h).symm
        rw [hr] at hx
        exact matchCIP_rest_subset chapterLit l (g0, rr) hm x
          (mem_of_mem_dropWhile hx)

theorem topicCore_some_head {l g : List Char} (h : topicCore l = some g) :
    ∃ c cs, l = c :: cs ∧ (c = 't' ∨ c = 'T') := by
  rw [topicCore] at h
  cases hm : matchCIP topicLit l with
  | none => rw [hm] at h; simp at h
  | some gr =>
    exact matchCIP_head (show matchCIP (('t', 'T') ::
      [('o', 'O'), ('p', 'P'), ('i', 'I'), ('c', 'C')]) l = some gr from hm)

theorem numberedCore_none {c : Char} {cs : List Char}
    (hc : pyIsDigit c = false) : numberedCore (c :: cs) = none := by
  simp [numberedCore, List.span_eq_take_drop, List.takeWhile_cons, hc]

theorem numberedCore_some_head {l g : List Char} (h : numberedCore l = some g) :
    ∃ c cs, l = c :: cs ∧ pyIsDigit c = true := by
  cases l with
  | nil => simp [numberedCore, List.span_eq_take_drop] at h
  | cons c cs =>
    by_cases hc : pyIsDigit c = true
    · exact ⟨c, cs, rfl, hc⟩
    · rw [numberedCore_none (Bool.eq_false_iff.mpr hc)] at h
      simp at h

theorem afterChapterKw_none {c : Char} {cs : List Char} (h1 : ¬c = 'c')
    (h2 : ¬c = 'C') : afterChapterKw (c :: cs) = none := by
  simp [afterChapterKw, matchCIP, chapterLit, h1, h2]

theorem afterChapterKw_some_head {l r : List Char}
    (h : afterChapterKw l = some r) :
    ∃ c cs, l = c :: cs ∧ (c = 'c' ∨ c = 'C') := by
  rw [afterChapterKw] at h
  cases hm : matchCIP chapterLit l with
  | none => rw [hm] at h; simp at h
  | some gr =>
    exact matchCIP_head (show matchCIP (('c', 'C') ::
      [('h', 'H'), ('a', 'A'), ('p', 'P'), ('t', 'T'), ('e', 'E'),
        ('r', 'R')]) l = some gr from hm)

theorem dotWsLetterRunNoDot_eq {l g : List Char}
    (h : dotWsLetterRunNoDot l = some g) (hnl : ∀ x ∈ l, ¬x = '\n') :
    g = l := by
  simp only [dotWsLetterRunNoDot, List.span_eq_take_drop] at h
  cases hd : l.dropWhile pyIsSpace with
  | nil => rw [hd] at h; simp at h
  | cons c rest =>
    simp only [hd] at h
    by_cases ha : pyIsAlpha c = true
    · rw [if_pos ha] at h
      have hrest : ∀ x ∈ rest, ¬x = '\n' := fun x hx =>
        hnl x (mem_of_mem_dropWhile (hd ▸ List.mem_cons_of_mem c hx))
      have hrun : rest.takeWhile (fun d => !(d = '\n')) = rest :=
        List.takeWhile_eq_self_iff.mpr (fun x hx => by
          simpa using hrest x hx)
      rw [hrun] at h
      by_cases he : rest.isEmpty
      · rw [if_pos he] at h
        simp at h
      · rw [if_neg he] at h
        have hg : l.takeWhile pyIsSpace ++ c :: rest = g := Option.some.inj h
        rw [← hg, ← hd, List.takeWhile_append_dropWhile]
    · rw [if_neg ha] at h
      simp at h

theorem dotWsLetterRun_eq {l g : List Char} (h : dotWsLetterRun l = some g)
    (hnl : ∀ x ∈ l, ¬x = '\n') : g = l := by
  cases l with
  | nil => exact dotWsLetterRunNoDot_eq h hnl
  | cons c t =>
    rw [dotWsLetterRun] at h
    by_cases hc : c = '.'
    · subst hc
      rw [if_pos rfl] at h
      cases hnd : dotWsLetterRunNoDot t with
      | none => rw [hnd] at h; simp at h
      | some g2 =>
        rw [hnd, Option.map_some'] at h
        have hg2 : g2 = t := dotWsLetterRunNoDot_eq hnd
          (fun x hx => hnl x (List.mem_cons_of_mem _ hx))
        rw [← Option.some.inj h, hg2]
    · rw [if_neg hc] at h
      exact dotWsLetterRunNoDot_eq h hnl

theorem chDigitsShape_eq {l g : List Char} (h : chDigitsShape l = some g)
    (hnl : ∀ x ∈ l, ¬x = '\n') : g = l := by
  simp only [chDigitsShape, List.span_eq_take_drop] at h
  by_cases hd : (l.takeWhile pyIsDigit).isEmpty
  · rw [if_pos hd] at h
    simp at h
  · rw [if_neg hd] at h
    cases hdw : dotWsLetterRun (l.dropWhile pyIsDigit) with
    | none => rw [hdw] at h; simp at h
    | some g2 =>
      rw [hdw, Option.map_some'] at h
      have hg2 : g2 = l.dropWhile pyIsDigit :=
        dotWsLetterRun_eq hdw (fun x hx => hnl x (mem_of_mem_dropWhile hx))
      rw [← Option.some.inj h, hg2, List.takeWhile_append_dropWhile]

theorem chWordLoop_eq : ∀ {t g : List Char}, chWordLoop t = some g →
    (∀ x ∈ t, ¬x = '\n') → g = t := by
  intro t
  induction t with
  | nil =>
    intro g h hnl
    exact dotWsLetterRun_eq h (by simp)
  | cons c t ih =>
    intro g h hnl
    rw [chWordLoop] at h
    by_cases hw : pyIsWord c = true
    · rw [if_pos hw] at h
      cases hcl : chWordLoop t with
      | none =>
        simp only [hcl] at h
        exact dotWsLetterRun_eq h hnl
      | some g2 =>
        simp only [hcl] at h
        have hg2 : g2 = t := ih hcl
          (fun x hx => hnl x (List.mem_cons_of_mem _ hx))
        rw [← Option.some.inj h, hg2]
    · rw [if_neg hw] at h
      exact dotWsLetterRun_eq h hnl

theorem chWordLoop_isSome_of_dotWs {rest g2 : List Char}
    (hd : dotWsLetterRun rest = some g2) : (chWordLoop rest).isSome := by
  cases rest with
  | nil => simp [chWordLoop, hd]
  | cons c t =>
    rw [chWordLoop]
    by_cases hw : pyIsWord c = true
    · rw [if_pos hw]
      cases hcl : chWordLoop t with
      | some g3 => simp [hcl]
      | none => simp [hcl, hd]
    · rw [if_neg hw]
      simp [hd]

theorem chWordLoop_isSome_append :
    ∀ (w rest : List Char) {g2 : List Char},
      (∀ x ∈ w, pyIsWord x = true) → dotWsLetterRun rest = some g2 →
      (chWordLoop (w ++ rest)).isSome := by
  intro w
  induction w with
  | nil =>
    intro rest g2 _ hd
    exact chWordLoop_isSome_of_dotWs hd
  | cons c w2 ih =>
    intro rest g2 hw hd
    rw [List.cons_append, chWordLoop,
      if_pos (hw c (List.mem_cons_self c w2))]
    cases hcl : chWordLoop (w2 ++ rest) with
    | some g3 => simp [hcl]
    | none =>
      have := ih rest (fun x hx => hw x (List.mem_cons_of_mem c hx)) hd
      rw [hcl] at this
      simp at this

theorem chWord_of_chDigits {r g : List Char} (h : chDigitsShape r = some g)
    (hnl : ∀ x ∈ r, ¬x = '\n') : chWordShape r = some g := by
  have hg : g = r := chDigitsShape_eq h hnl
  subst hg
  simp only [chDigitsShape, List.span_eq_take_drop] at h
  by_cases hd : (g.takeWhile pyIsDigit).isEmpty
  · rw [if_pos hd] at h
    simp at h
  · rw [if_neg hd] at h
    cases hdw : dotWsLetterRun (g.dropWhile pyIsDigit) with
    | none => rw [hdw] at h; simp at h
    | some g2 =>
      obtain ⟨c, t, hrct, hcd⟩ : ∃ c t, g = c :: t ∧ pyIsDigit c = true := by
        cases g with
        | nil => simp at hd
        | cons c t =>
          rw [List.takeWhile_cons] at hd
          by_cases hc : pyIsDigit c = true
          · exact ⟨c, t, rfl, hc⟩
          · rw [if_neg hc] at hd
            simp at hd
      have hdw2 : dotWsLetterRun (t.dropWhile pyIsDigit) = some g2 := by
        rw [← hdw, hrct, List.dropWhile_cons, if_pos hcd]
      have hsome := chWordLoop_isSome_append (t.takeWhile pyIsDigit)
        (t.dropWhile pyIsDigit)
        (fun x hx => by
          have := List.mem_takeWhile_imp hx
          simp [pyIsWord, this])
        hdw2
      rw [List.takeWhile_append_dropWhile] at hsome
      cases hcl : chWordLoop t with
      | none =>
        rw [hcl] at hsome
        simp at hsome
      | some gl =>
        have hglt : gl = t := chWordLoop_eq hcl
          (fun x hx => hnl x (hrct ▸ List.mem_cons_of_mem c hx))
        rw [hrct]
        simp only [chWordShape]
        rw [if_pos (show pyIsWord c = true by simp [pyIsWord, hcd]), hcl,
          Option.map_some', hglt]

theorem pat4_of_pat3 {l g : List Char} (h : pat3 l = some g)
    (hnl : ∀ x ∈ l, ¬x = '\n') : pat4 l = some g := by
  rw [pat3] at h
  rw [pat4]
  cases hak : afterChapterKw (l.dropWhile pyIsSpace) with
  | none => rw [hak] at h; simp at h
  | some r =>
    rw [hak] at h
    rw [Option.some_bind] at h
    rw [Option.some_bind]
    have hr : ∀ x ∈ r, ¬x = '\n' := fun x hx =>
      hnl x (mem_of_mem_dropWhile (afterChapterKw_subset hak x hx))
    exact chWord_of_chDigits h hr

/-- C5: on every line the code inspects (lines never contain a newline),
the per-line loop with filter fall-through computes the same mark as the
first-match-wins semantics: the first pattern in the priority order that
matches a line is the only one that can contribute its mark.  Patterns
whose anchors start with Topic, a digit, and chapter are mutually
exclusive on a line, and when the Chapter digits pattern matches and is
filtered out, the Chapter word pattern captures the identical group, so
the fall-through never manufactures a different mark. -/
theorem pattern_first_match_wins (l : List Char)
    (hnl : ∀ x ∈ l, ¬x = '\n') :
    processLine l = firstWins chapterPatterns l := by
  unfold processLine
  cases h1 : pat1 l with
  | some g1 =>
    obtain ⟨c, cs, hl, hc⟩ := topicCore_some_head h1
    have h2 : pat2 l = none := by
      rw [pat2, hl]
      apply numberedCore_none
      rcases hc with rfl | rfl <;> decide
    have hak : afterChapterKw (l.dropWhile pyIsSpace) = none := by
      rw [hl]
      rcases hc with rfl | rfl <;>
        exact afterChapterKw_none (by decide) (by decide)
    have h3 : pat3 l = none := by rw [pat3, hak]; rfl
    have h4 : pat4 l = none := by rw [pat4, hak]; rfl
    cases hf : filterAccept g1 <;>
      simp [chapterPatterns, tryPatterns, firstWins, h1, h2, h3, h4, hf]
  | none =>
    cases h2 : pat2 l with
    | some g2 =>
      obtain ⟨c, cs, hl, hc⟩ := numberedCore_some_head h2
      have hak : afterChapterKw (l.dropWhile pyIsSpace) = none := by
        rw [hl]
        refine afterChapterKw_none ?_ ?_ <;>
          (intro heq; rw [heq] at hc; exact absurd hc (by decide))
      have h3 : pat3 l = none := by rw [pat3, hak]; rfl
      have h4 : pat4 l = none := by rw [pat4, hak]; rfl
      cases hf : filterAccept g2 <;>
        simp [chapterPatterns, tryPatterns, firstWins, h1, h2, h3, h4, hf]
    | none =>
      cases h3 : pat3 l with
      | some g3 =>
        have h4 : pat4 l = some g3 := pat4_of_pat3 h3 hnl
        cases hf : filterAccept g3 <;>
          simp [chapterPatterns, tryPatterns, firstWins, h1, h2, h3, h4, hf]
      | none =>
        cases h4 : pat4 l with
        | some g4 =>
          cases hf : filterAccept g4 <;>
            simp [chapterPatterns, tryPatterns, firstWins, h1, h2, h3, h4, hf]
        | none =>
          simp [chapterPatterns, tryPatterns, firstWins, h1, h2, h3, h4]

/-- C5 witness: a concrete line matched by the Chapter digits form. -/
theorem pattern_first_match_wins_witness :
    processLine ("Chapter 4. Fluid Dynamics and Pressure" : String).data =
      firstWins chapterPatterns
        ("Chapter 4. Fluid Dynamics and Pressure" : String).data :=
  pattern_first_match_wins _ (by decide)

end PdfSplit
